import Mathlib

/-!
Verification of the SAM clock-tree drivers
(core/drivers/clk/sam/clk-sam9x60-pll.c and
core/drivers/clk/sam/sama7g5_clk.c).

The mutable per-node state (mul/frac for fractional PLLs, div for divider
PLLs, parent/div for the sama7g5 master clocks) is made explicit and every
driver operation becomes a pure function from the old state (plus the
inputs the C function reads) to the result code and the new state.
Machine-integer truncation (`uint16_t`/`uint8_t` field assignments,
`unsigned long` underflow) is kept as explicit `% 2 ^ w` arithmetic.
-/

namespace SamClk

/-- Error kinds named by the design document; the C code encodes
`RateOutOfRange` as `-ERANGE`, `UnsupportedDivisor` and
`InvalidParentIndex` as `-1`/`-EINVAL`. -/
inductive ClkErr where
  | RateOutOfRange
  | UnsupportedDivisor
  | InvalidParentIndex
deriving DecidableEq, Repr

/-- Inclusive frequency range, `struct clk_range`. -/
structure clk_range where
  min : Nat
  max : Nat
deriving DecidableEq, Repr

/-- Macro `DIV_ROUND_CLOSEST` from both driver files, specialised to the
unsigned branch the drivers use: `((x) + ((d) / 2)) / (d)`. -/
def DIV_ROUND_CLOSEST (x d : Nat) : Nat := (x + d / 2) / d

/-- Modelled from the spec: `DIV_ROUND_NEAREST`, used by
`sam9x60_frac_pll_compute_mul_frac`, comes from a header that is not part
of the sources; the spec describes it as nearest-rounding division, which
is the same `(x + d / 2) / d` computation as the in-file unsigned
`DIV_ROUND_CLOSEST`. -/
def DIV_ROUND_NEAREST (x d : Nat) : Nat := (x + d / 2) / d

/-- Macro `mult_frac(x, numer, denom)` from clk-sam9x60-pll.c:
`quot * numer + (rem * numer) / denom` with `quot = x / denom`,
`rem = x % denom`. -/
def mult_frac (x numer denom : Nat) : Nat :=
  x / denom * numer + x % denom * numer / denom

/-- Truncation of the C expression `n - 1` (computed on `unsigned long`,
wrapping at zero) when assigned to a `uint16_t` field, as in
`frac->mul = nmul - 1`. -/
def u16_of_sub_one (n : Nat) : Nat := (n + 2 ^ 64 - 1) % 2 ^ 64 % 2 ^ 16

/-- Truncation of the C expression `n - 1` (computed on `unsigned long`,
wrapping at zero) when assigned to a `uint8_t` field, as in
`div->div = DIV_ROUND_CLOSEST(parent_rate, rate) - 1`. -/
def u8_of_sub_one (n : Nat) : Nat := (n + 2 ^ 64 - 1) % 2 ^ 64 % 2 ^ 8

/-- Truncation of an `unsigned long` value assigned to a `uint32_t`
field, as in `frac->frac = nfrac`. -/
def u32_of (n : Nat) : Nat := n % 2 ^ 32

/-- Mutable state of a fractional PLL node, `struct sam9x60_frac`
(`mul` is a `uint16_t` field, `frac` a `uint32_t` field). -/
structure sam9x60_frac where
  mul : Nat
  frac : Nat
deriving DecidableEq, Repr

/-- Mutable state of a divider PLL node, `struct sam9x60_div`
(`div` is a `uint8_t` field). -/
structure sam9x60_div where
  div : Nat
deriving DecidableEq, Repr

/-- The core-output range declared by both `cpu_pll_characteristics` and
`pll_characteristics` in sama7g5_clk.c (`core_outputs[0]`): every
fractional PLL node of this platform uses it. -/
def core_outputs : clk_range := ⟨600000000, 1200000000⟩

/-- The declared input range of both PLL characteristics tables in
sama7g5_clk.c (`.input = { .min = 12000000, .max = 50000000 }`). -/
def pll_input_range : clk_range := ⟨12000000, 50000000⟩

/-- Local `nmul` of `sam9x60_frac_pll_compute_mul_frac`:
`nmul = mult_frac(rate, 1, parent_rate)`. -/
def frac_pll_nmul (rate parent_rate : Nat) : Nat :=
  mult_frac rate 1 parent_rate

/-- Local `tmprate` of `sam9x60_frac_pll_compute_mul_frac` before the
fractional correction: `tmprate = mult_frac(parent_rate, nmul, 1)`. -/
def frac_pll_tmprate0 (rate parent_rate : Nat) : Nat :=
  mult_frac parent_rate (frac_pll_nmul rate parent_rate) 1

/-- Local `remainder` of `sam9x60_frac_pll_compute_mul_frac`:
`remainder = rate - tmprate`. -/
def frac_pll_remainder (rate parent_rate : Nat) : Nat :=
  rate - frac_pll_tmprate0 rate parent_rate

/-- Local `nfrac` of `sam9x60_frac_pll_compute_mul_frac` (0 when the
remainder is zero, else
`DIV_ROUND_NEAREST(remainder * (1 << 22), parent_rate)`). -/
def frac_pll_nfrac (rate parent_rate : Nat) : Nat :=
  if frac_pll_remainder rate parent_rate ≠ 0 then
    DIV_ROUND_NEAREST (frac_pll_remainder rate parent_rate * 2 ^ 22)
      parent_rate
  else 0

/-- Final value of local `tmprate` of
`sam9x60_frac_pll_compute_mul_frac`, after
`tmprate += DIV_ROUND_NEAREST(nfrac * parent_rate, 1 << 22)` inside the
`if (remainder)` branch. -/
def frac_pll_tmprate (rate parent_rate : Nat) : Nat :=
  if frac_pll_remainder rate parent_rate ≠ 0 then
    frac_pll_tmprate0 rate parent_rate +
      DIV_ROUND_NEAREST (frac_pll_nfrac rate parent_rate * parent_rate)
        (2 ^ 22)
  else frac_pll_tmprate0 rate parent_rate

/-- Function `sam9x60_frac_pll_compute_mul_frac` from clk-sam9x60-pll.c.
`charac_core_output` is `frac->core.charac->core_output[0]`.  Returns the
`long` result (`-ERANGE` mapped to `.error .RateOutOfRange`, the achieved
rate otherwise) together with the state left in `frac` (updated only when
`update` holds and both range checks passed). -/
def sam9x60_frac_pll_compute_mul_frac (charac_core_output : clk_range)
    (st : sam9x60_frac) (rate parent_rate : Nat) (update : Bool) :
    Except ClkErr Nat × sam9x60_frac :=
  if rate < charac_core_output.min ∨ charac_core_output.max < rate then
    (.error .RateOutOfRange, st)
  else if frac_pll_tmprate rate parent_rate < charac_core_output.min ∨
      charac_core_output.max < frac_pll_tmprate rate parent_rate then
    (.error .RateOutOfRange, st)
  else if update then
    (.ok (frac_pll_tmprate rate parent_rate),
     ⟨u16_of_sub_one (frac_pll_nmul rate parent_rate),
      u32_of (frac_pll_nfrac rate parent_rate)⟩)
  else
    (.ok (frac_pll_tmprate rate parent_rate), st)

/-- Function `sam9x60_frac_pll_set_rate` from clk-sam9x60-pll.c: runs the
computation with `update = true`, discards its result and returns 0
(`TEE_SUCCESS`). -/
def sam9x60_frac_pll_set_rate (charac_core_output : clk_range)
    (st : sam9x60_frac) (rate parent_rate : Nat) : Nat × sam9x60_frac :=
  (0, (sam9x60_frac_pll_compute_mul_frac charac_core_output st rate parent_rate
        true).2)

/-- Function `sam9x60_frac_pll_recalc_rate` from clk-sam9x60-pll.c; `div2` is
`core->layout->div2` (absent, hence false, in `pll_layout_frac`, the
layout of every fractional PLL of this platform). -/
def sam9x60_frac_pll_recalc_rate (st : sam9x60_frac) (parent_rate : Nat)
    (div2 : Bool) : Nat :=
  let freq := parent_rate * (st.mul + 1) +
    DIV_ROUND_CLOSEST (parent_rate * st.frac) (2 ^ 22)
  if div2 then freq >>> 1 else freq

/-- Function `sam9x60_div_pll_set_rate` from clk-sam9x60-pll.c:
`div->div = DIV_ROUND_CLOSEST(parent_rate, rate) - 1` (u8 assignment),
returns 0. -/
def sam9x60_div_pll_set_rate (st : sam9x60_div) (rate parent_rate : Nat) :
    Nat × sam9x60_div :=
  (0, ⟨u8_of_sub_one (DIV_ROUND_CLOSEST parent_rate rate)⟩)

/-- Function `sam9x60_div_pll_recalc_rate` from clk-sam9x60-pll.c. -/
def sam9x60_div_pll_recalc_rate (st : sam9x60_div) (parent_rate : Nat) : Nat :=
  DIV_ROUND_CLOSEST parent_rate (st.div + 1)

/-- Boot-time state initialisation performed by
`sam9x60_clk_register_frac_pll`: when the per-id ready bit is set the
state is read back from `PMC_PLL_CTRL1` (`ctrl1`) using
`PMC_PLL_CTRL1_MUL_POS`/`MSK` and `PMC_PLL_CTRL1_FRACR_POS`/`MSK`;
otherwise it is computed for the minimum declared rate, failing (`none`)
when the parent rate is zero or the computation does not return a
positive rate. -/
def sam9x60_clk_register_frac_pll_state (charac : clk_range) (ready : Bool)
    (ctrl1 parent_rate : Nat) : Option sam9x60_frac :=
  if ready then
    some ⟨ctrl1 >>> 24 &&& 0xff, ctrl1 >>> 0 &&& 0x3fffff⟩
  else if parent_rate = 0 then
    none
  else
    match sam9x60_frac_pll_compute_mul_frac charac ⟨0, 0⟩ charac.min
        parent_rate true with
    | (.ok t, st) => if t = 0 then none else some st
    | (.error _, _) => none

/-- Boot-time state initialisation performed by
`sam9x60_clk_register_div_pll`: the divisor is always read back from
`PMC_PLL_CTRL0` (`ctrl0`) using `PMC_PLL_CTRL0_DIV_POS`/`MSK`. -/
def sam9x60_clk_register_div_pll_state (ctrl0 : Nat) : sam9x60_div :=
  ⟨ctrl0 >>> 0 &&& 0xf⟩

/-- Mutable state of a sama7g5 master clock, `struct clk_master_sama7`
(`parent` holds the hardware select code, `div` the prescaler code). -/
structure clk_master_sama7 where
  parent : Nat
  div : Nat
deriving DecidableEq, Repr

/-- Function `clk_sama7g5_master_set_parent` from sama7g5_clk.c: an index at or
beyond `hw->num_parents` (the length of the mux table) fails with
`-EINVAL` (`InvalidParentIndex`) leaving the state alone; otherwise the
sparse select code `master->mux_table[index]` is stored. -/
def clk_sama7g5_master_set_parent (mux_table : List Nat)
    (st : clk_master_sama7) (index : Nat) : Int × clk_master_sama7 :=
  if mux_table.length ≤ index then (-1, st)
  else (0, { st with parent := mux_table.getD index 0 })

/-- Fuel-indexed helper for `ffs`; the fuel only needs to dominate the
bit width of the argument. -/
def ffsAux : Nat → Nat → Nat
  | 0, _ => 0
  | fuel + 1, n =>
    if n = 0 then 0
    else if n % 2 = 1 then 1
    else ffsAux fuel (n / 2) + 1

/-- Routine `ffs`: one-based index of the least significant set bit, 0 for 0
(the libc routine used by `clk_sama7g5_master_set_rate`). -/
def ffs (n : Nat) : Nat := ffsAux n n

/-- Function `clk_sama7g5_master_set_rate` from sama7g5_clk.c.
`MASTER_PRES_MAX = 7`, so the divisor bound is `1 << 6 = 64`. -/
def clk_sama7g5_master_set_rate (st : clk_master_sama7)
    (rate parent_rate : Nat) : Int × clk_master_sama7 :=
  let div := DIV_ROUND_CLOSEST parent_rate rate
  if 64 < div ∨ div &&& (div - 1) ≠ 0 then (-1, st)
  else
    let d := if div = 3 then 7 else if div ≠ 0 then ffs div - 1 else div
    (0, { st with div := d })

/-- Function `clk_sama7g5_master_get_rate` from sama7g5_clk.c. -/
def clk_sama7g5_master_get_rate (st : clk_master_sama7)
    (parent_rate : Nat) : Nat :=
  let rate := parent_rate >>> st.div
  if st.div = 7 then parent_rate / 3 else rate

/-- Register accesses issued by `clk_sama7g5_master_set` (the poll loop
is reported separately as a Boolean). -/
inductive IOEvent where
  | writeMCR (val : Nat)
  | readMCR
  | clrsetMCR (clr set : Nat)
deriving DecidableEq, Repr

/-- Modelled from the spec: the `AT91_PMC_MCR_V2_*` field constants come
from a header that is not part of the sources, so they stay abstract;
only the shifts `PMC_MCR_CSS_SHIFT = 16` and `MASTER_DIV_SHIFT = 8`
appear in sama7g5_clk.c itself. -/
structure McrMasks where
  en : Nat
  css : Nat
  div : Nat
  cmd : Nat
  id_msk : Nat
deriving DecidableEq, Repr

/-- Function `clk_sama7g5_master_set` from sama7g5_clk.c: select the per-id view,
read the register back (`val` is the value the hardware returns), commit
enable, parent select, divisor and command in one
`io_clrsetbits32` write, then poll the ready bit only while the parent
read back before the write differs from the newly programmed one.
Returns the access trace and whether the poll loop is entered. -/
def clk_sama7g5_master_set (m : McrMasks) (st : clk_master_sama7)
    (id : Nat) (status : Bool) (val : Nat) : List IOEvent × Bool :=
  let enable := if status then m.en else 0
  let parent := st.parent <<< 16
  let div := st.div <<< 8
  let cparent := (val &&& m.css) >>> 16
  ([.writeMCR (id &&& m.id_msk), .readMCR,
    .clrsetMCR (enable ||| m.css ||| m.div ||| m.cmd ||| m.id_msk)
      (enable ||| parent ||| div ||| m.cmd ||| (id &&& m.id_msk))],
   cparent != st.parent)

/-- Spec-side formula of claim C2: `nmul = floor(target / parent)`. -/
def specNmul (rate p : Nat) : Nat := rate / p

/-- Spec-side formula of claim C2:
`residual = target - parent * nmul`. -/
def specResidual (rate p : Nat) : Nat := rate - p * specNmul rate p

/-- Spec-side formula of claim C2: 22-bit fractional word obtained by
nearest-rounding `residual * 2^22 / parent`. -/
def specNfrac (rate p : Nat) : Nat :=
  DIV_ROUND_NEAREST (specResidual rate p * 2 ^ 22) p

/-- Spec-side formula of claim C2: achieved rate
`parent * nmul + round(nfrac * parent / 2^22)`. -/
def specAchieved (rate p : Nat) : Nat :=
  p * specNmul rate p + DIV_ROUND_NEAREST (specNfrac rate p * p) (2 ^ 22)

/-! ### Shared helper lemmas -/

/-- On the error paths of `sam9x60_frac_pll_compute_mul_frac` the stored
`mul`/`frac` pair is left untouched. -/
theorem compute_mul_frac_error_state (c : clk_range) (st : sam9x60_frac)
    (rate p : Nat) (u : Bool) (e : ClkErr)
    (h : (sam9x60_frac_pll_compute_mul_frac c st rate p u).1 = .error e) :
    (sam9x60_frac_pll_compute_mul_frac c st rate p u).2 = st := by
  unfold sam9x60_frac_pll_compute_mul_frac at h ⊢
  by_cases h1 : rate < c.min ∨ c.max < rate
  · rw [if_pos h1]
  · rw [if_neg h1] at h ⊢
    by_cases h2 : frac_pll_tmprate rate p < c.min ∨
        c.max < frac_pll_tmprate rate p
    · rw [if_pos h2]
    · rw [if_neg h2] at h
      by_cases h3 : u = true
      · rw [if_pos h3] at h
        simp at h
      · rw [if_neg h3] at h
        simp at h

/-- The eight accepted divisor values of the sama7g5 master prescaler
check `div ≤ 64 && !(div & (div - 1))`. -/
theorem pow2_le_64_enum (d : Nat) (h1 : d ≤ 64) (h2 : d &&& (d - 1) = 0) :
    d = 0 ∨ d = 1 ∨ d = 2 ∨ d = 4 ∨ d = 8 ∨ d = 16 ∨ d = 32 ∨ d = 64 := by
  interval_cases d <;> revert h2 <;> decide

/-- Evaluation of `mult_frac(rate, 1, parent_rate)`: plain flooring division. -/
theorem frac_pll_nmul_eq (rate p : Nat) (hp : 0 < p) :
    frac_pll_nmul rate p = rate / p := by
  unfold frac_pll_nmul mult_frac
  rw [Nat.mul_one, Nat.mul_one, Nat.div_eq_of_lt (Nat.mod_lt rate hp),
    Nat.add_zero]

/-- Evaluation of `mult_frac(parent_rate, nmul, 1)`: the plain product. -/
theorem frac_pll_tmprate0_eq (rate p : Nat) (hp : 0 < p) :
    frac_pll_tmprate0 rate p = p * (rate / p) := by
  unfold frac_pll_tmprate0
  rw [frac_pll_nmul_eq rate p hp]
  unfold mult_frac
  rw [Nat.div_one, Nat.mod_one, Nat.zero_mul, Nat.zero_div, Nat.add_zero]

/-- The `remainder` local is the division remainder of the target by the
parent rate. -/
theorem frac_pll_remainder_eq (rate p : Nat) (hp : 0 < p) :
    frac_pll_remainder rate p = rate % p := by
  unfold frac_pll_remainder
  rw [frac_pll_tmprate0_eq rate p hp]
  have h := Nat.div_add_mod rate p
  omega

/-- The spec residual is the division remainder as well. -/
theorem specResidual_eq_mod (rate p : Nat) : specResidual rate p = rate % p := by
  unfold specResidual specNmul
  have h := Nat.div_add_mod rate p
  omega

/-- Nearest-rounding a zero numerator gives zero. -/
theorem DIV_ROUND_NEAREST_zero (p : Nat) (hp : 0 < p) :
    DIV_ROUND_NEAREST 0 p = 0 := by
  unfold DIV_ROUND_NEAREST
  rw [Nat.zero_add]
  exact Nat.div_eq_of_lt (by omega)

/-- The code's `nfrac` local (with its `if (remainder)` guard) agrees
with the branchless spec formula. -/
theorem frac_pll_nfrac_eq_spec (rate p : Nat) (hp : 0 < p) :
    frac_pll_nfrac rate p = specNfrac rate p := by
  unfold frac_pll_nfrac specNfrac
  rw [frac_pll_remainder_eq rate p hp, specResidual_eq_mod]
  split
  · rfl
  next h =>
    have h0 : rate % p = 0 := by omega
    rw [h0, Nat.zero_mul, DIV_ROUND_NEAREST_zero p hp]

/-- The code's final `tmprate` agrees with the branchless spec formula
for the achieved rate. -/
theorem frac_pll_tmprate_eq_spec (rate p : Nat) (hp : 0 < p) :
    frac_pll_tmprate rate p = specAchieved rate p := by
  unfold frac_pll_tmprate specAchieved
  rw [frac_pll_tmprate0_eq rate p hp, frac_pll_remainder_eq rate p hp,
    frac_pll_nfrac_eq_spec rate p hp]
  unfold specNmul
  split
  · rfl
  next h =>
    have h0 : rate % p = 0 := by omega
    have hnf : specNfrac rate p = 0 := by
      unfold specNfrac
      rw [specResidual_eq_mod, h0, Nat.zero_mul, DIV_ROUND_NEAREST_zero p hp]
    rw [hnf, Nat.zero_mul]
    unfold DIV_ROUND_NEAREST
    norm_num

/-- The fractional word never exceeds `2^22`. -/
theorem frac_pll_nfrac_le (rate p : Nat) (hp : 0 < p) :
    frac_pll_nfrac rate p ≤ 2 ^ 22 := by
  unfold frac_pll_nfrac
  split
  · have hrem : frac_pll_remainder rate p < p := by
      rw [frac_pll_remainder_eq rate p hp]
      exact Nat.mod_lt rate hp
    unfold DIV_ROUND_NEAREST
    have h3 : frac_pll_remainder rate p * 2 ^ 22 ≤ (p - 1) * 2 ^ 22 :=
      Nat.mul_le_mul_right _ (by omega)
    have h2 : frac_pll_remainder rate p * 2 ^ 22 + p / 2 < (2 ^ 22 + 1) * p := by
      omega
    have := (Nat.div_lt_iff_lt_mul hp).mpr h2
    omega
  · omega

/-- The `uint16_t` store of `nmul - 1` is exact for the multiplier
values reachable on this platform. -/
theorem u16_of_sub_one_eq (n : Nat) (h1 : 1 ≤ n) (h2 : n ≤ 65536) :
    u16_of_sub_one n = n - 1 := by
  unfold u16_of_sub_one
  omega

/-- The `uint32_t` store of the fractional word is exact. -/
theorem u32_of_small (n : Nat) (h : n ≤ 2 ^ 22) : u32_of n = n := by
  unfold u32_of
  omega

/-- Scaling a residual up to a fractional word and back moves it by at
most one fractional step: the double rounding stays within
`p / 2^22` (stated multiplied through by `2^22`). -/
theorem frac_roundtrip_close (p rem : Nat) (hp : 2 ^ 22 ≤ p) (hrem : rem < p) :
    2 ^ 22 * DIV_ROUND_NEAREST (DIV_ROUND_NEAREST (rem * 2 ^ 22) p * p)
        (2 ^ 22) ≤ 2 ^ 22 * rem + p ∧
    2 ^ 22 * rem ≤
      2 ^ 22 * DIV_ROUND_NEAREST (DIV_ROUND_NEAREST (rem * 2 ^ 22) p * p)
        (2 ^ 22) + p := by
  have hp0 : 0 < p := by omega
  unfold DIV_ROUND_NEAREST
  have hdm := Nat.div_add_mod (rem * 2 ^ 22 + p / 2) p
  have hmod := Nat.mod_lt (rem * 2 ^ 22 + p / 2) hp0
  have hcomm : p * ((rem * 2 ^ 22 + p / 2) / p) =
      (rem * 2 ^ 22 + p / 2) / p * p := Nat.mul_comm _ _
  omega

/-- Scaling a fractional word down to a residual and back up recovers
the word exactly (for the parent rates of this platform,
`p ≥ 2^23`). -/
theorem frac_word_retract (p f : Nat) (hp : 2 ^ 23 ≤ p) :
    DIV_ROUND_NEAREST (DIV_ROUND_NEAREST (f * p) (2 ^ 22) * 2 ^ 22) p = f := by
  have hp0 : 0 < p := by omega
  unfold DIV_ROUND_NEAREST
  refine Nat.div_eq_of_lt_le ?_ ?_
  · omega
  · have hexp : (f + 1) * p = f * p + p := by ring
    omega

/-- The fractional increment stays below one parent period whenever the
fractional word is strictly below `2^22`. -/
theorem frac_word_scale_lt (p f : Nat) (hp : 2 ^ 21 < p) (hf : f < 2 ^ 22) :
    DIV_ROUND_NEAREST (f * p) (2 ^ 22) < p := by
  unfold DIV_ROUND_NEAREST
  have h3 : f * p ≤ (2 ^ 22 - 1) * p := Nat.mul_le_mul_right _ (by omega)
  have := (Nat.div_lt_iff_lt_mul (show (0 : Nat) < 2 ^ 22 by norm_num)).mpr
    (show f * p + 2 ^ 22 / 2 < p * 2 ^ 22 by omega)
  omega

/-- A zero fractional increment forces a zero fractional word. -/
theorem frac_word_scale_eq_zero (p f : Nat) (hp : 2 ^ 21 < p)
    (h : DIV_ROUND_NEAREST (f * p) (2 ^ 22) = 0) : f = 0 := by
  unfold DIV_ROUND_NEAREST at h
  by_contra hne
  have hf1 : 1 ≤ f := by omega
  have hle : p ≤ f * p := by
    calc p = 1 * p := (Nat.one_mul p).symm
    _ ≤ f * p := Nat.mul_le_mul_right _ hf1
  omega

/-- Inversion of a successful `update = true` computation: both range
checks passed, the returned rate is the final `tmprate` and the stored
state holds the truncated `nmul - 1` and the fractional word. -/
theorem compute_ok_inv (c : clk_range) (st st' : sam9x60_frac)
    (rate p t : Nat)
    (h : sam9x60_frac_pll_compute_mul_frac c st rate p true = (.ok t, st')) :
    ¬(rate < c.min ∨ c.max < rate) ∧
    ¬(frac_pll_tmprate rate p < c.min ∨ c.max < frac_pll_tmprate rate p) ∧
    t = frac_pll_tmprate rate p ∧
    st' = ⟨u16_of_sub_one (frac_pll_nmul rate p),
           u32_of (frac_pll_nfrac rate p)⟩ := by
  unfold sam9x60_frac_pll_compute_mul_frac at h
  by_cases h1 : rate < c.min ∨ c.max < rate
  · rw [if_pos h1] at h
    simp at h
  · rw [if_neg h1] at h
    by_cases h2 : frac_pll_tmprate rate p < c.min ∨
        c.max < frac_pll_tmprate rate p
    · rw [if_pos h2] at h
      simp at h
    · rw [if_neg h2, if_pos rfl] at h
      refine ⟨h1, h2, ?_, ?_⟩
      · exact (Except.ok.inj (congrArg Prod.fst h)).symm
      · exact (congrArg Prod.snd h).symm

/-- A successful `update = true` computation does not depend on the
incoming state. -/
theorem compute_ok_state_independent (c : clk_range) (st st' s : sam9x60_frac)
    (rate p v : Nat)
    (h : sam9x60_frac_pll_compute_mul_frac c st rate p true = (.ok v, s)) :
    sam9x60_frac_pll_compute_mul_frac c st' rate p true = (.ok v, s) := by
  unfold sam9x60_frac_pll_compute_mul_frac at h ⊢
  by_cases h1 : rate < c.min ∨ c.max < rate
  · rw [if_pos h1] at h
    simp at h
  · rw [if_neg h1] at h ⊢
    by_cases h2 : frac_pll_tmprate rate p < c.min ∨
        c.max < frac_pll_tmprate rate p
    · rw [if_pos h2] at h
      simp at h
    · rw [if_neg h2, if_pos rfl] at h ⊢
      exact h

/-- Introduction rule for a successful `update = true` computation. -/
theorem compute_ok_intro (c : clk_range) (st : sam9x60_frac) (rate p : Nat)
    (h1 : ¬(rate < c.min ∨ c.max < rate))
    (h2 : ¬(frac_pll_tmprate rate p < c.min ∨
      c.max < frac_pll_tmprate rate p)) :
    sam9x60_frac_pll_compute_mul_frac c st rate p true =
      (.ok (frac_pll_tmprate rate p),
       ⟨u16_of_sub_one (frac_pll_nmul rate p),
        u32_of (frac_pll_nfrac rate p)⟩) := by
  unfold sam9x60_frac_pll_compute_mul_frac
  rw [if_neg h1, if_neg h2, if_pos rfl]

/-! ### Claims -/

/-- C1: for a multiplexed master node, `set_parent(node, i)` with
`i` below the candidate-parent count succeeds and stores the sparse
select code `mux_table[i]` (never the raw index), while `i` at or beyond
the count fails with `InvalidParentIndex` and leaves the selected parent
unchanged; with the non-contiguous table `[5, 7, 9]`, selecting logical
index 2 programs code 9. -/
theorem master_set_parent_spec (mux : List Nat) (st : clk_master_sama7)
    (i : Nat) :
    (i < mux.length →
      clk_sama7g5_master_set_parent mux st i =
        (0, { st with parent := mux.getD i 0 })) ∧
    (mux.length ≤ i →
      clk_sama7g5_master_set_parent mux st i = (-1, st)) ∧
    (clk_sama7g5_master_set_parent [5, 7, 9] st 2).2.parent = 9 := by
  refine ⟨fun h => ?_, fun h => ?_, rfl⟩
  · unfold clk_sama7g5_master_set_parent
    rw [if_neg (by omega)]
  · unfold clk_sama7g5_master_set_parent
    rw [if_pos h]

/-- Witness for C1 at the table `[5, 7, 9]`: index 2 programs code 9 and
index 3 is rejected without touching the state. -/
theorem master_set_parent_witness :
    clk_sama7g5_master_set_parent [5, 7, 9] ⟨0, 0⟩ 2 = (0, ⟨9, 0⟩) ∧
    clk_sama7g5_master_set_parent [5, 7, 9] ⟨0, 0⟩ 3 = (-1, ⟨0, 0⟩) :=
  ⟨(master_set_parent_spec [5, 7, 9] ⟨0, 0⟩ 2).1 (by decide),
   (master_set_parent_spec [5, 7, 9] ⟨0, 0⟩ 3).2.1 (by decide)⟩

/-- C10: `sam9x60_frac_pll_set_rate` always reports success (0), and
whenever the internal computation rejects the request the stored
`mul`/`frac` pair is left completely unchanged. -/
theorem frac_pll_set_rate_reports_success (charac : clk_range)
    (st : sam9x60_frac) (rate p : Nat) :
    (sam9x60_frac_pll_set_rate charac st rate p).1 = 0 ∧
    ∀ e : ClkErr,
      (sam9x60_frac_pll_compute_mul_frac charac st rate p true).1 = .error e →
      (sam9x60_frac_pll_set_rate charac st rate p).2 = st :=
  ⟨rfl, fun e he => compute_mul_frac_error_state charac st rate p true e he⟩

/-- Witness for C10: a rejected request (rate 0) still returns 0 and
keeps the state. -/
theorem frac_pll_set_rate_reports_success_witness :
    (sam9x60_frac_pll_set_rate core_outputs ⟨1, 2⟩ 0 5).1 = 0 ∧
    (sam9x60_frac_pll_set_rate core_outputs ⟨1, 2⟩ 0 5).2 = ⟨1, 2⟩ :=
  ⟨(frac_pll_set_rate_reports_success core_outputs ⟨1, 2⟩ 0 5).1,
   (frac_pll_set_rate_reports_success core_outputs ⟨1, 2⟩ 0 5).2
     .RateOutOfRange rfl⟩

/-- C4 counterexample: requesting one unit below the declared minimum of
the fractional-PLL core range through `set_rate` reports success
(returns 0), contradicting the claim that such a request fails with
`RateOutOfRange` and that success is never reported.  (The rate is not
clamped: the state is untouched.) -/
theorem frac_pll_boundary_counterexample :
    (sam9x60_frac_pll_set_rate core_outputs ⟨10, 20⟩ (600000000 - 1)
      12000000).1 = 0 ∧
    (sam9x60_frac_pll_set_rate core_outputs ⟨10, 20⟩ (600000000 - 1)
      12000000).2 = ⟨10, 20⟩ :=
  ⟨rfl, rfl⟩

/-- C4 amended: one unit below the declared minimum or above the
declared maximum, the internal computation rejects the request with
`RateOutOfRange` and the state is never clamped into range, but the
`set_rate` entry point itself still returns success (0). -/
theorem frac_pll_boundary_reject (st : sam9x60_frac) (p : Nat) :
    sam9x60_frac_pll_compute_mul_frac core_outputs st (600000000 - 1) p true =
      (.error .RateOutOfRange, st) ∧
    sam9x60_frac_pll_compute_mul_frac core_outputs st (1200000000 + 1) p true =
      (.error .RateOutOfRange, st) ∧
    sam9x60_frac_pll_set_rate core_outputs st (600000000 - 1) p = (0, st) ∧
    sam9x60_frac_pll_set_rate core_outputs st (1200000000 + 1) p = (0, st) := by
  have h1 : sam9x60_frac_pll_compute_mul_frac core_outputs st (600000000 - 1)
      p true = (.error .RateOutOfRange, st) := by
    unfold sam9x60_frac_pll_compute_mul_frac
    rw [if_pos (by decide)]
  have h2 : sam9x60_frac_pll_compute_mul_frac core_outputs st (1200000000 + 1)
      p true = (.error .RateOutOfRange, st) := by
    unfold sam9x60_frac_pll_compute_mul_frac
    rw [if_pos (by decide)]
  refine ⟨h1, h2, ?_, ?_⟩
  · unfold sam9x60_frac_pll_set_rate
    rw [h1]
  · unfold sam9x60_frac_pll_set_rate
    rw [h2]

/-- C5 counterexample: with parent rate 100000 and target 100 the
closest ratio is 1000, but the stored 8-bit divisor is the truncation
`999 % 256 = 231`, not the saturating clamp `min 999 255 = 255` the
claim's reading of "clamped" predicts. -/
theorem div_pll_clamp_counterexample :
    (sam9x60_div_pll_set_rate ⟨5⟩ 100 100000).2.div = 231 ∧
    DIV_ROUND_CLOSEST 100000 100 - 1 = 999 ∧
    min (DIV_ROUND_CLOSEST 100000 100 - 1) 255 = 255 ∧
    (231 : Nat) ≠ 255 := by decide

/-- C5 amended: the divider PLL stores
`DIV_ROUND_CLOSEST(parent, target) - 1` reduced by the `uint8_t` field
assignment, i.e. wrapped modulo 256 (with ratio 0 wrapping to 255), so
the stored divisor never exceeds 255 and equals `ratio - 1` exactly
whenever `1 ≤ ratio ≤ 256`; `get_rate` then returns
`round(parent / (div + 1))`. -/
theorem div_pll_set_rate_amended (st : sam9x60_div) (rate p : Nat) :
    ((sam9x60_div_pll_set_rate st rate p).2.div =
      if DIV_ROUND_CLOSEST p rate = 0 then 255
      else (DIV_ROUND_CLOSEST p rate - 1) % 256) ∧
    (sam9x60_div_pll_set_rate st rate p).2.div ≤ 255 ∧
    sam9x60_div_pll_recalc_rate (sam9x60_div_pll_set_rate st rate p).2 p =
      DIV_ROUND_CLOSEST p ((sam9x60_div_pll_set_rate st rate p).2.div + 1) := by
  have e : (sam9x60_div_pll_set_rate st rate p).2.div =
      (DIV_ROUND_CLOSEST p rate + 2 ^ 64 - 1) % 2 ^ 64 % 2 ^ 8 := rfl
  refine ⟨?_, ?_, rfl⟩
  · rw [e]
    split
    next h => omega
    next h => omega
  · rw [e]
    omega

/-- C9: when a fractional PLL is already running at registration time
(per-id ready bit set), its stored `mul`/`frac` pair is initialised from
the `PMC_PLL_CTRL1` readback, not from any computation, and divider PLLs
always take their divisor from the `PMC_PLL_CTRL0` readback; `get_rate`
immediately after construction therefore reproduces exactly the rate
implied by the boot-time register values. -/
theorem register_readback_authoritative (charac : clk_range)
    (ctrl1 ctrl0 p : Nat) :
    sam9x60_clk_register_frac_pll_state charac true ctrl1 p =
      some ⟨ctrl1 >>> 24 &&& 0xff, ctrl1 >>> 0 &&& 0x3fffff⟩ ∧
    sam9x60_frac_pll_recalc_rate
        ⟨ctrl1 >>> 24 &&& 0xff, ctrl1 >>> 0 &&& 0x3fffff⟩ p false =
      p * ((ctrl1 >>> 24 &&& 0xff) + 1) +
        DIV_ROUND_CLOSEST (p * (ctrl1 >>> 0 &&& 0x3fffff)) (2 ^ 22) ∧
    sam9x60_clk_register_div_pll_state ctrl0 = ⟨ctrl0 >>> 0 &&& 0xf⟩ ∧
    sam9x60_div_pll_recalc_rate (sam9x60_clk_register_div_pll_state ctrl0) p =
      DIV_ROUND_CLOSEST p ((ctrl0 >>> 0 &&& 0xf) + 1) :=
  ⟨rfl, rfl, rfl, rfl⟩

/-- C8: committing a master-clock configuration performs exactly one
masked `io_clrsetbits32` write carrying enable, parent select, divisor
and command together, and the ready-bit poll loop is entered exactly
when the parent read back before the write differs from the newly
programmed parent (a divisor-only change with the same parent never
waits). -/
theorem master_set_single_write_conditional_wait (m : McrMasks)
    (st : clk_master_sama7) (id : Nat) (status : Bool) (val : Nat) :
    clk_sama7g5_master_set m st id status val =
      ([.writeMCR (id &&& m.id_msk), .readMCR,
        .clrsetMCR
          ((if status then m.en else 0) ||| m.css ||| m.div ||| m.cmd |||
            m.id_msk)
          ((if status then m.en else 0) ||| st.parent <<< 16 |||
            st.div <<< 8 ||| m.cmd ||| (id &&& m.id_msk))],
       ((val &&& m.css) >>> 16 != st.parent)) ∧
    ((clk_sama7g5_master_set m st id status val).1.filter
        (fun ev => match ev with | .clrsetMCR _ _ => true | _ => false)).length
      = 1 ∧
    ((clk_sama7g5_master_set m st id status val).2 = false ↔
      (val &&& m.css) >>> 16 = st.parent) := by
  refine ⟨rfl, rfl, ?_⟩
  unfold clk_sama7g5_master_set
  simp

/-- C3 counterexample: with parent rate 12 and target 4 the closest
ratio is 3, which the claim places in the valid prescaler set
`{1,2,4,8,16,32,64,3}`, yet `clk_sama7g5_master_set_rate` rejects it
(returns `-EINVAL`) because the power-of-two test `div & (div - 1)`
fires before the `div == 3` special case is reached. -/
theorem master_set_rate_counterexample :
    DIV_ROUND_CLOSEST 12 4 = 3 ∧
    (clk_sama7g5_master_set_rate ⟨0, 0⟩ 4 12).1 = -1 ∧
    (clk_sama7g5_master_set_rate ⟨0, 0⟩ 4 12).2 = ⟨0, 0⟩ := by
  refine ⟨rfl, rfl, rfl⟩

/-- C3 amended: `clk_sama7g5_master_set_rate` accepts a target exactly
when the closest ratio `round(parent/target)` passes
`div ≤ 64 && (div & (div - 1)) == 0`, i.e. when it is 0 or a power of
two at most 64 — ratio 3 is rejected with `UnsupportedDivisor` even
though the `/3` prescaler code exists, so that code is unreachable from
`set_rate`; on success the stored prescaler is `ffs(div) - 1` and
`get_rate` returns `parent >> pres`. -/
theorem master_set_rate_amended (st : clk_master_sama7) (rate p : Nat) :
    ((clk_sama7g5_master_set_rate st rate p).1 = 0 ↔
      DIV_ROUND_CLOSEST p rate ≤ 64 ∧
        DIV_ROUND_CLOSEST p rate &&& (DIV_ROUND_CLOSEST p rate - 1) = 0) ∧
    (DIV_ROUND_CLOSEST p rate ≤ 64 ∧
        DIV_ROUND_CLOSEST p rate &&& (DIV_ROUND_CLOSEST p rate - 1) = 0 →
      (clk_sama7g5_master_set_rate st rate p).2.div =
        ffs (DIV_ROUND_CLOSEST p rate) - 1 ∧
      clk_sama7g5_master_get_rate (clk_sama7g5_master_set_rate st rate p).2 p =
        p >>> (ffs (DIV_ROUND_CLOSEST p rate) - 1)) := by
  constructor
  · unfold clk_sama7g5_master_set_rate
    by_cases hc : 64 < DIV_ROUND_CLOSEST p rate ∨
        DIV_ROUND_CLOSEST p rate &&& (DIV_ROUND_CLOSEST p rate - 1) ≠ 0
    · rw [if_pos hc]
      constructor
      · intro h0
        simp at h0
      · intro hgood
        rcases hc with hc | hc
        · omega
        · exact absurd hgood.2 hc
    · rw [if_neg hc]
      push_neg at hc
      simp only [true_iff, iff_true]
      exact ⟨by omega, hc.2⟩
  · intro hgood
    have hne : ¬(64 < DIV_ROUND_CLOSEST p rate ∨
        DIV_ROUND_CLOSEST p rate &&& (DIV_ROUND_CLOSEST p rate - 1) ≠ 0) := by
      push_neg
      exact ⟨by omega, hgood.2⟩
    unfold clk_sama7g5_master_set_rate
    rw [if_neg hne]
    rcases pow2_le_64_enum (DIV_ROUND_CLOSEST p rate) hgood.1 hgood.2 with
      h | h | h | h | h | h | h | h <;>
      rw [h] <;>
      exact ⟨rfl, rfl⟩

/-- Witness for the amended C3 at parent rate 100 and target 25
(ratio 4): the stored prescaler is `ffs(4) - 1 = 2` and `get_rate`
shifts the parent right by it. -/
theorem master_set_rate_amended_witness :
    (clk_sama7g5_master_set_rate ⟨0, 0⟩ 25 100).2.div =
      ffs (DIV_ROUND_CLOSEST 100 25) - 1 ∧
    clk_sama7g5_master_get_rate (clk_sama7g5_master_set_rate ⟨0, 0⟩ 25 100).2
        100 =
      100 >>> (ffs (DIV_ROUND_CLOSEST 100 25) - 1) :=
  (master_set_rate_amended ⟨0, 0⟩ 25 100).2 (by decide)

/-- C2: for a fractional PLL fed within its declared input range and a
target inside the declared core-output range, the computation follows
the spec formulas — `nmul = floor(target/parent)`, the fractional word
is the nearest-rounding of `residual * 2^22 / parent`, the stored pair
is `(nmul - 1, nfrac)` and `get_rate` on the stored pair returns
`parent * (mul + 1) + round(parent * frac / 2^22)` — while an achieved
rate outside the declared range is rejected with `RateOutOfRange`. -/
theorem frac_pll_compute_follows_spec (st : sam9x60_frac) (rate p : Nat)
    (hp1 : pll_input_range.min ≤ p) (hp2 : p ≤ pll_input_range.max)
    (hr1 : core_outputs.min ≤ rate) (hr2 : rate ≤ core_outputs.max) :
    (core_outputs.min ≤ specAchieved rate p ∧
        specAchieved rate p ≤ core_outputs.max →
      sam9x60_frac_pll_compute_mul_frac core_outputs st rate p true =
        (.ok (specAchieved rate p),
         ⟨specNmul rate p - 1, specNfrac rate p⟩) ∧
      sam9x60_frac_pll_recalc_rate ⟨specNmul rate p - 1, specNfrac rate p⟩ p
          false =
        p * (specNmul rate p - 1 + 1) +
          DIV_ROUND_CLOSEST (p * specNfrac rate p) (2 ^ 22)) ∧
    (specAchieved rate p < core_outputs.min ∨
        core_outputs.max < specAchieved rate p →
      sam9x60_frac_pll_compute_mul_frac core_outputs st rate p true =
        (.error .RateOutOfRange, st)) := by
  have hp1' : 12000000 ≤ p := hp1
  have hp2' : p ≤ 50000000 := hp2
  have hr1' : 600000000 ≤ rate := hr1
  have hr2' : rate ≤ 1200000000 := hr2
  have hp0 : 0 < p := by omega
  have hnm1 : 1 ≤ rate / p := (Nat.one_le_div_iff hp0).mpr (by omega)
  have hnm2 : rate / p ≤ 100 := by
    calc rate / p ≤ 1200000000 / p := Nat.div_le_div_right hr2'
    _ ≤ 1200000000 / 12000000 := Nat.div_le_div_left hp1' (by omega)
    _ = 100 := by norm_num
  have hnfr : frac_pll_nfrac rate p = specNfrac rate p :=
    frac_pll_nfrac_eq_spec rate p hp0
  have hnfle : specNfrac rate p ≤ 2 ^ 22 := by
    rw [← hnfr]
    exact frac_pll_nfrac_le rate p hp0
  have htmp : frac_pll_tmprate rate p = specAchieved rate p :=
    frac_pll_tmprate_eq_spec rate p hp0
  constructor
  · intro hin
    constructor
    · rw [compute_ok_intro core_outputs st rate p
        (by push_neg; exact ⟨hr1, hr2⟩)
        (by push_neg; rw [htmp]; exact ⟨hin.1, hin.2⟩)]
      rw [htmp, frac_pll_nmul_eq rate p hp0, hnfr,
        u16_of_sub_one_eq (rate / p) hnm1 (by omega), u32_of_small _ hnfle]
      rfl
    · rfl
  · intro hout
    unfold sam9x60_frac_pll_compute_mul_frac
    rw [if_neg (by push_neg; exact ⟨hr1, hr2⟩), htmp, if_pos hout]

/-- Witness for C2 at parent rate 12 MHz and target 600000005 Hz. -/
theorem frac_pll_compute_follows_spec_witness :
    sam9x60_frac_pll_compute_mul_frac core_outputs ⟨3, 4⟩ 600000005 12000000
        true =
      (.ok (specAchieved 600000005 12000000),
       ⟨specNmul 600000005 12000000 - 1, specNfrac 600000005 12000000⟩) ∧
    sam9x60_frac_pll_recalc_rate
        ⟨specNmul 600000005 12000000 - 1, specNfrac 600000005 12000000⟩
        12000000 false =
      12000000 * (specNmul 600000005 12000000 - 1 + 1) +
        DIV_ROUND_CLOSEST (12000000 * specNfrac 600000005 12000000) (2 ^ 22) :=
  (frac_pll_compute_follows_spec ⟨3, 4⟩ 600000005 12000000 (by decide)
    (by decide) (by decide) (by decide)).1 (by decide)

/-- C6: whenever the computation accepts a target, the achieved rate it
returns is within one fractional step of the target,
`|achieved - target| ≤ parent / 2^22`, stated multiplied through by
`2^22`. -/
theorem frac_pll_rate_within_step (st st' : sam9x60_frac) (rate p t : Nat)
    (hp : pll_input_range.min ≤ p)
    (hc : sam9x60_frac_pll_compute_mul_frac core_outputs st rate p true =
      (.ok t, st')) :
    2 ^ 22 * t ≤ 2 ^ 22 * rate + p ∧ 2 ^ 22 * rate ≤ 2 ^ 22 * t + p := by
  have hp' : 12000000 ≤ p := hp
  have hp0 : 0 < p := by omega
  obtain ⟨h1, h2, ht, hst⟩ := compute_ok_inv core_outputs st st' rate p t hc
  have hach : specAchieved rate p =
      p * (rate / p) +
        DIV_ROUND_NEAREST (DIV_ROUND_NEAREST (rate % p * 2 ^ 22) p * p)
          (2 ^ 22) := by
    unfold specAchieved specNfrac specNmul
    rw [specResidual_eq_mod]
  rw [ht, frac_pll_tmprate_eq_spec rate p hp0, hach]
  have hrc := frac_roundtrip_close p (rate % p) (by omega)
    (Nat.mod_lt rate hp0)
  have hdm := Nat.div_add_mod rate p
  omega

/-- Witness for C6 at parent rate 12 MHz and target 600000005 Hz, whose
achieved rate is 600000006 Hz. -/
theorem frac_pll_rate_within_step_witness :
    2 ^ 22 * 600000006 ≤ 2 ^ 22 * 600000005 + 12000000 ∧
    2 ^ 22 * 600000005 ≤ 2 ^ 22 * 600000006 + 12000000 :=
  frac_pll_rate_within_step ⟨0, 0⟩ ⟨49, 2⟩ 600000005 12000000 600000006
    (by decide) rfl

/-- C7 counterexample: at parent rate 12 MHz, target 611999999 Hz makes
the fractional word round up to exactly `2^22`, the achieved rate is
612000000 Hz, and re-running the computation on that achieved rate
stores the pair `(50, 0)` instead of the original `(49, 4194304)` — the
computation is not idempotent in `mul`/`frac` at this boundary (the
achieved rate is reproduced, though). -/
theorem frac_pll_idempotence_counterexample :
    sam9x60_frac_pll_compute_mul_frac core_outputs ⟨0, 0⟩ 611999999 12000000
        true = (.ok 612000000, ⟨49, 4194304⟩) ∧
    sam9x60_frac_pll_compute_mul_frac core_outputs ⟨49, 4194304⟩ 612000000
        12000000 true = (.ok 612000000, ⟨50, 0⟩) ∧
    (⟨50, 0⟩ : sam9x60_frac) ≠ ⟨49, 4194304⟩ := by
  refine ⟨rfl, rfl, by decide⟩

/-- C7 amended: if the computation on target `rate` succeeds with
achieved rate `t` and stored state `st₁`, and the stored fractional
word is strictly below `2^22` (the non-carry case), then re-running the
computation on `t` succeeds with the same achieved rate and stores
exactly the same `mul`/`frac` pair.  (When the fractional word is
exactly `2^22` the recomputation instead carries into the multiplier,
as the counterexample shows.) -/
theorem frac_pll_compute_idempotent (st st₁ : sam9x60_frac) (rate p t : Nat)
    (hp : pll_input_range.min ≤ p)
    (hc : sam9x60_frac_pll_compute_mul_frac core_outputs st rate p true =
      (.ok t, st₁))
    (hfr : st₁.frac < 2 ^ 22) :
    sam9x60_frac_pll_compute_mul_frac core_outputs st₁ t p true =
      (.ok t, st₁) := by
  have hp' : 12000000 ≤ p := hp
  have hp0 : 0 < p := by omega
  obtain ⟨h1, h2, ht, hst⟩ := compute_ok_inv core_outputs st st₁ rate p t hc
  have hfle : frac_pll_nfrac rate p ≤ 2 ^ 22 := frac_pll_nfrac_le rate p hp0
  have hfr2 : frac_pll_nfrac rate p < 2 ^ 22 := by
    have h := hfr
    rw [hst] at h
    have h' : u32_of (frac_pll_nfrac rate p) < 2 ^ 22 := h
    rwa [u32_of_small _ hfle] at h'
  have hA : ¬(t < core_outputs.min ∨ core_outputs.max < t) := by
    rw [ht]
    exact h2
  by_cases hrem : frac_pll_remainder rate p = 0
  · have htmpr : frac_pll_tmprate rate p = rate := by
      unfold frac_pll_tmprate
      rw [if_neg (not_ne_iff.mpr hrem), frac_pll_tmprate0_eq rate p hp0]
      have hdm := Nat.div_add_mod rate p
      have hrm : frac_pll_remainder rate p = rate % p :=
        frac_pll_remainder_eq rate p hp0
      omega
    have htr : t = rate := ht.trans htmpr
    rw [htr] at hc ⊢
    exact compute_ok_state_independent core_outputs st st₁ st₁ rate p rate hc
  · have hremm : frac_pll_remainder rate p = rate % p :=
      frac_pll_remainder_eq rate p hp0
    have hteq : t = p * (rate / p) +
        DIV_ROUND_NEAREST (frac_pll_nfrac rate p * p) (2 ^ 22) := by
      rw [ht]
      unfold frac_pll_tmprate
      rw [if_pos hrem, frac_pll_tmprate0_eq rate p hp0]
    by_cases hψ : DIV_ROUND_NEAREST (frac_pll_nfrac rate p * p) (2 ^ 22) = 0
    · have hf0 : frac_pll_nfrac rate p = 0 :=
        frac_word_scale_eq_zero p _ (by omega) hψ
      have ht0 : t = p * (rate / p) := by
        rw [hteq, hψ, Nat.add_zero]
      have hnm' : frac_pll_nmul t p = rate / p := by
        rw [frac_pll_nmul_eq t p hp0, ht0, Nat.mul_div_cancel_left _ hp0]
      have hrem'' : frac_pll_remainder t p = 0 := by
        rw [frac_pll_remainder_eq t p hp0, ht0, Nat.mul_mod_right]
      have htmp' : frac_pll_tmprate t p = t := by
        unfold frac_pll_tmprate
        rw [if_neg (not_ne_iff.mpr hrem''), frac_pll_tmprate0_eq t p hp0, ht0,
          Nat.mul_div_cancel_left _ hp0]
      have hnf' : frac_pll_nfrac t p = 0 := by
        unfold frac_pll_nfrac
        rw [if_neg (not_ne_iff.mpr hrem'')]
      have hB : ¬(frac_pll_tmprate t p < core_outputs.min ∨
          core_outputs.max < frac_pll_tmprate t p) := by
        rw [htmp']
        exact hA
      rw [compute_ok_intro core_outputs st₁ t p hA hB, htmp', hnm', hnf', hst,
        frac_pll_nmul_eq rate p hp0, hf0]
    · have hψlt : DIV_ROUND_NEAREST (frac_pll_nfrac rate p * p) (2 ^ 22) < p :=
        frac_word_scale_lt p _ (by omega) hfr2
      have hnm' : frac_pll_nmul t p = rate / p := by
        rw [frac_pll_nmul_eq t p hp0, hteq, Nat.mul_add_div hp0,
          Nat.div_eq_of_lt hψlt, Nat.add_zero]
      have hrem'' : frac_pll_remainder t p =
          DIV_ROUND_NEAREST (frac_pll_nfrac rate p * p) (2 ^ 22) := by
        rw [frac_pll_remainder_eq t p hp0, hteq, Nat.mul_add_mod,
          Nat.mod_eq_of_lt hψlt]
      have hnf' : frac_pll_nfrac t p = frac_pll_nfrac rate p := by
        unfold frac_pll_nfrac
        rw [hrem'', if_pos hψ]
        exact frac_word_retract p (frac_pll_nfrac rate p) (by omega)
      have htp : t / p = rate / p := by
        rw [← frac_pll_nmul_eq t p hp0, hnm']
      have htmp' : frac_pll_tmprate t p = t := by
        unfold frac_pll_tmprate
        rw [if_pos (by rw [hrem'']; exact hψ), frac_pll_tmprate0_eq t p hp0,
          htp, hnf', ← hteq]
      have hB : ¬(frac_pll_tmprate t p < core_outputs.min ∨
          core_outputs.max < frac_pll_tmprate t p) := by
        rw [htmp']
        exact hA
      rw [compute_ok_intro core_outputs st₁ t p hA hB, htmp', hnm', hnf', hst,
        frac_pll_nmul_eq rate p hp0]

/-- Witness for the amended C7 at parent rate 12 MHz: the computation on
600000005 Hz achieves 600000006 Hz storing `(49, 2)`, and re-running it
on 600000006 Hz reproduces exactly that result. -/
theorem frac_pll_compute_idempotent_witness :
    sam9x60_frac_pll_compute_mul_frac core_outputs ⟨49, 2⟩ 600000006 12000000
        true = (.ok 600000006, ⟨49, 2⟩) :=
  frac_pll_compute_idempotent ⟨0, 0⟩ ⟨49, 2⟩ 600000005 12000000 600000006
    (by decide) rfl (by decide)

end SamClk
